import Mathlib

/-!
Shallow embedding of the marketplace backend actor (category registry,
batch-upload session, product catalog, price-constraint table).

The source is a single actor whose stable state consists of ordered maps
keyed by `Text` plus a pending-upload list and a boolean batch flag.  We
model each `Map.Map<Text, _>` as an association list with unique keys
(`add` replaces in place or appends, `remove` drops the entry, `size` is
the number of entries), each public shared function as a function
`State → Except String State` where `.error` models a `Runtime.trap`
(a trap rolls the whole message back, so an erroneous call leaves the
state unchanged by construction), and the `caller`-permission check
`AccessControl.hasPermission(state, caller, #admin)` as an `isAdmin`
boolean argument.
-/

namespace Marketplace

/-- Blob references are opaque handles; any type with decidable equality
models them. -/
abbrev ExternalBlob := Nat

structure CategoryV2 where
  name : String
  subcategories : List String
  parent : Option String
deriving DecidableEq

abbrev Category := CategoryV2

structure Product where
  id : String
  name : String
  description : String
  price : Nat
  categoryId : String
  image : ExternalBlob
deriving DecidableEq

structure ProductInput where
  id : String
  name : String
  price : Nat
  categoryId : String
  image : ExternalBlob
deriving DecidableEq

structure PriceConstraint where
  category : String
  minPrice : String
deriving DecidableEq

/-- Association-list model of `mo:core/Map` keyed by `Text`. -/
abbrev StrMap (α : Type) := List (String × α)

namespace StrMap

def get {α : Type} : StrMap α → String → Option α
  | [], _ => none
  | (k', v) :: rest, k => if k' = k then some v else get rest k

def containsKey {α : Type} (m : StrMap α) (k : String) : Bool :=
  (get m k).isSome

def add {α : Type} : StrMap α → String → α → StrMap α
  | [], k, v => [(k, v)]
  | (k', v') :: rest, k, v =>
    if k' = k then (k, v) :: rest else (k', v') :: add rest k v

def remove {α : Type} : StrMap α → String → StrMap α
  | [], _ => []
  | (k', v') :: rest, k => if k' = k then rest else (k', v') :: remove rest k

def size {α : Type} (m : StrMap α) : Nat := m.length

def values {α : Type} (m : StrMap α) : List α := m.map Prod.snd

theorem get_add_self {α : Type} (m : StrMap α) (k : String) (v : α) :
    get (add m k v) k = some v := by
  induction m with
  | nil => simp [add, get]
  | cons hd tl ih =>
    obtain ⟨k', v'⟩ := hd
    by_cases h : k' = k
    · simp [add, h, get]
    · simp [add, h, get, ih]

theorem get_add_ne {α : Type} (m : StrMap α) (k k' : String) (v : α)
    (h : k' ≠ k) : get (add m k v) k' = get m k' := by
  have hkk : ¬k = k' := fun hh => h hh.symm
  induction m with
  | nil => simp [add, get, hkk]
  | cons hd tl ih =>
    obtain ⟨k₀, v₀⟩ := hd
    by_cases h0 : k₀ = k
    · subst h0
      simp [add, get, hkk]
    · simp only [add, if_neg h0, get]
      by_cases h1 : k₀ = k'
      · simp [h1]
      · simp [h1, ih]

theorem get_remove_ne {α : Type} (m : StrMap α) (k k' : String)
    (h : k' ≠ k) : get (remove m k) k' = get m k' := by
  have hkk : ¬k = k' := fun hh => h hh.symm
  induction m with
  | nil => simp [remove]
  | cons hd tl ih =>
    obtain ⟨k₀, v₀⟩ := hd
    by_cases h0 : k₀ = k
    · subst h0
      simp [remove, get, hkk]
    · simp only [remove, if_neg h0, get]
      by_cases h1 : k₀ = k'
      · simp [h1]
      · simp [h1, ih]

theorem mem_of_get {α : Type} (m : StrMap α) (k : String) (v : α)
    (h : get m k = some v) : (k, v) ∈ m := by
  induction m with
  | nil => simp [get] at h
  | cons hd tl ih =>
    obtain ⟨k₀, v₀⟩ := hd
    by_cases h0 : k₀ = k
    · subst h0
      simp [get] at h
      simp [h]
    · simp [get, h0] at h
      exact List.mem_cons_of_mem _ (ih h)

theorem containsKey_eq_false_iff {α : Type} (m : StrMap α) (k : String) :
    containsKey m k = false ↔ get m k = none := by
  unfold containsKey
  cases get m k <;> simp

theorem containsKey_eq_true_iff {α : Type} (m : StrMap α) (k : String) :
    containsKey m k = true ↔ ∃ v, get m k = some v := by
  unfold containsKey
  cases get m k <;> simp

theorem size_add_of_get_none {α : Type} (m : StrMap α) (k : String) (v : α)
    (h : get m k = none) : size (add m k v) = size m + 1 := by
  induction m with
  | nil => simp [add, size]
  | cons hd tl ih =>
    obtain ⟨k₀, v₀⟩ := hd
    by_cases h0 : k₀ = k
    · simp [get, h0] at h
    · simp [get, h0] at h
      simp [add, h0, size] at ih ⊢
      exact ih h

theorem size_add_of_get_some {α : Type} (m : StrMap α) (k : String) (v v' : α)
    (h : get m k = some v') : size (add m k v) = size m := by
  induction m with
  | nil => simp [get] at h
  | cons hd tl ih =>
    obtain ⟨k₀, v₀⟩ := hd
    by_cases h0 : k₀ = k
    · simp [add, h0, size]
    · simp [get, h0] at h
      simp [add, h0, size] at ih ⊢
      exact ih h

theorem get_eq_none_of_not_mem {α : Type} (m : StrMap α) (k : String)
    (h : k ∉ m.map Prod.fst) : get m k = none := by
  induction m with
  | nil => rfl
  | cons hd tl ih =>
    obtain ⟨k₀, v₀⟩ := hd
    simp only [List.map_cons, List.mem_cons, not_or] at h
    obtain ⟨h1, h2⟩ := h
    rw [get, if_neg (fun he => h1 he.symm)]
    exact ih h2

theorem get_remove_self {α : Type} (m : StrMap α) (k : String)
    (hnd : (m.map Prod.fst).Nodup) : get (remove m k) k = none := by
  induction m with
  | nil => rfl
  | cons hd tl ih =>
    obtain ⟨k₀, v₀⟩ := hd
    simp only [List.map_cons, List.nodup_cons] at hnd
    obtain ⟨hnotin, hnd'⟩ := hnd
    by_cases h0 : k₀ = k
    · subst h0
      rw [remove, if_pos rfl]
      exact get_eq_none_of_not_mem tl k₀ hnotin
    · rw [remove, if_neg h0, get, if_neg h0]
      exact ih hnd'

end StrMap

/-- Whole-actor state: the stable variables the modelled operations read
or write.  (`userProfiles`, `baskets`, admin bookkeeping and the Stripe /
store-settings configuration are independent of every operation modelled
here and are omitted.) -/
structure State where
  products : StrMap Product
  categories : StrMap Category
  priceConstraints : StrMap PriceConstraint
  currentBatch : List ProductInput
  isBatchUploading : Bool
deriving DecidableEq

def initState : State :=
  { products := []
    categories := []
    priceConstraints := []
    currentBatch := []
    isBatchUploading := false }

/-- `generateProductDescription` from the source: deterministic templated
text keyed on the category name. -/
def generateProductDescription (name category : String) : String :=
  let baseDescription := name ++ " is a high-quality, handcrafted musical instrument."
  let categorySpecific :=
    if category = "Ceramic Ocarina" then
      " This ceramic ocarina features a classic design, producing rich and warm tones. It is perfect for both beginners and professionals looking for an authentic sound experience."
    else if category = "3D Printed Ocarina" then
      " This 3D printed ocarina combines modern design with durability, offering a lightweight and robust instrument. Ideal for musicians seeking innovative and reliable performance."
    else
      " This product is crafted with care, ensuring excellent sound quality and playability."
  "The product named " ++ name ++ " is in the category of " ++ category ++ "." ++
    "\n - Characteristics: Easy to play, Durable, Portable.\n - 30-day money-back guarantee for all products in this category \n\n" ++
    baseDescription ++ categorySpecific

/-- Helper from the source: append the child name to the parent record and
store the updated parent under its own name. -/
def updateParentWithNewSubcategory (cats : StrMap Category)
    (parent : Category) (childName : String) : StrMap Category :=
  let updatedSubcategories := parent.subcategories ++ [childName]
  let updatedParent := { parent with subcategories := updatedSubcategories }
  cats.add parent.name updatedParent

def addCategory (isAdmin : Bool) (category : Category) (s : State) :
    Except String State :=
  if !isAdmin then .error "Unauthorized: Only admins can add categories"
  else if category.name = "" then .error "Cannot add empty category name"
  else if s.categories.containsKey category.name then .error "Category already exists"
  else
    match category.parent with
    | some parentName =>
      match s.categories.get parentName with
      | none => .error "Parent category does not exist. Please select a valid parent category or leave the parent field empty."
      | some parentCategory =>
        match parentCategory.parent with
        | some _ => .error "Cannot create a subcategory within a subcategory. Only one level of subcategories is supported."
        | none =>
          let withParent := updateParentWithNewSubcategory s.categories parentCategory category.name
          .ok { s with categories := withParent.add category.name category }
    | none => .ok { s with categories := s.categories.add category.name category }

def updateCategory (isAdmin : Bool) (category : Category) (s : State) :
    Except String State :=
  if !isAdmin then .error "Unauthorized: Only admins can update categories"
  else if category.name = "" then .error "Cannot update a category to an empty name"
  else if !(s.categories.containsKey category.name) then .error "Category does not exist, cannot be updated"
  else
    match category.parent with
    | some parentName =>
      match s.categories.get parentName with
      | none => .error "Parent category does not exist. Please select a valid parent category or leave the parent field empty."
      | some parentCategory =>
        match parentCategory.parent with
        | some _ => .error "Cannot create a subcategory within a subcategory. Only one level of subcategories is supported."
        | none =>
          if parentCategory.subcategories.contains category.name then
            .ok { s with categories := s.categories.add category.name category }
          else
            let withParent := updateParentWithNewSubcategory s.categories parentCategory category.name
            .ok { s with categories := withParent.add category.name category }
    | none =>
      let stripped := s.categories.map (fun kv =>
        if kv.2.subcategories.contains category.name then
          (kv.1, { kv.2 with subcategories :=
            kv.2.subcategories.filter (fun sub => sub ≠ category.name) })
        else kv)
      .ok { s with categories := StrMap.add stripped category.name category }

def getCategories (s : State) : List Category := s.categories.values

def getCategory (name : String) (s : State) : Option Category :=
  s.categories.get name

def editCategory (isAdmin : Bool) (oldName : String) (newCategory : Category)
    (s : State) : Except String State :=
  if !isAdmin then .error "Unauthorized: Only admins can edit categories"
  else if newCategory.name = "" then .error "Cannot update a category to an empty name"
  else if !(s.categories.containsKey oldName) then .error "Category does not exist, cannot be edited"
  else
    match newCategory.parent with
    | some parentName =>
      match s.categories.get parentName with
      | none => .error "Parent category does not exist. Please select a valid parent category or leave the parent field empty."
      | some parentCategory =>
        match parentCategory.parent with
        | some _ => .error "Cannot create a subcategory within a subcategory. Only one level of subcategories is supported."
        | none =>
          .ok { s with categories :=
            (s.categories.remove oldName).add newCategory.name newCategory }
    | none =>
      .ok { s with categories :=
        (s.categories.remove oldName).add newCategory.name newCategory }

def deleteCategory (isAdmin : Bool) (name : String) (s : State) :
    Except String State :=
  if !isAdmin then .error "Unauthorized: Only admins can delete categories"
  else if !(s.categories.containsKey name) then .error "Category does not exist, cannot be deleted"
  else .ok { s with categories := s.categories.remove name }

def reorderCategories (isAdmin : Bool) (categoryList : List Category) (s : State) :
    Except String State :=
  if !isAdmin then .error "Unathorized: Only admins can reorder categories"
  else .ok { s with categories :=
    categoryList.foldl (fun m c => m.add c.name c) [] }

def startBatchUpload (isAdmin : Bool) (categoryId : String) (s : State) :
    Except String State :=
  if !isAdmin then .error "Unauthorized: Only admins can perform this action"
  else if !(s.categories.containsKey categoryId) then
    .error "Invalid category! Please select an existing category."
  else if s.isBatchUploading then
    .error "A batch is already in progress. Finish current upload before starting a new one."
  else
    .ok { s with currentBatch := [], isBatchUploading := true }

def uploadProductImage (isAdmin : Bool) (name : String) (image : ExternalBlob)
    (price : Nat) (categoryId : String) (s : State) : Except String State :=
  if !isAdmin then .error "Unauthorized: Only admins can perform this action"
  else if !s.isBatchUploading then
    .error "No batch in progress. Start a new batch upload first."
  else
    let productId := name ++ "#" ++ toString s.products.size
    .ok { s with currentBatch := s.currentBatch ++
      [{ id := productId, name := name, price := price, categoryId := categoryId,
         image := image }] }

/-- The committed record for one pending item: `{ p with description }`
in the source — the item's fields plus a generated description. -/
def committedProduct (p : ProductInput) (category : Category) : Product :=
  { id := p.id, name := p.name,
    description := generateProductDescription p.name category.name,
    price := p.price, categoryId := p.categoryId, image := p.image }

/-- The commit loop of `finishBatchUpload`: walk the pending items in
order, trapping on the first item whose category is unknown.  A trap rolls
the whole message back, so the `.error` result carries no state. -/
def commitBatch (cats : StrMap Category) :
    List ProductInput → StrMap Product → Except String (StrMap Product)
  | [], acc => .ok acc
  | p :: rest, acc =>
    match cats.get p.categoryId with
    | none => .error "Category does not exist"
    | some category =>
      let product := committedProduct p category
      commitBatch cats rest (acc.add product.id product)

def finishBatchUpload (isAdmin : Bool) (s : State) : Except String State :=
  if !isAdmin then .error "Unauthorized: Only admins can perform this action"
  else
    match commitBatch s.categories s.currentBatch s.products with
    | .error e => .error e
    | .ok newProducts =>
      .ok { s with products := newProducts, isBatchUploading := false }

def addProduct (isAdmin : Bool) (name : String) (price : Nat)
    (image : ExternalBlob) (categoryId : String) (s : State) :
    Except String State :=
  if !isAdmin then .error "Unauthorized: Only admins can add products"
  else
    match s.categories.get categoryId with
    | none => .error "Category does not exist"
    | some category =>
      let description := generateProductDescription name category.name
      let productId := name ++ "#" ++ toString s.products.size
      let product : Product :=
        { id := productId, name := name, description := description,
          price := price, categoryId := categoryId, image := image }
      .ok { s with products := s.products.add productId product }

def getAllProducts (s : State) : List Product := s.products.values

def getProduct (productId : String) (s : State) : Option Product :=
  s.products.get productId

def getPriceConstraint (category : String) (s : State) : Option PriceConstraint :=
  s.priceConstraints.get category

def updateProductImage (isAdmin : Bool) (productId : String)
    (newImage : ExternalBlob) (s : State) : Except String (Product × State) :=
  if !isAdmin then .error "Unauthorized: Only admins can update product images"
  else
    match s.products.get productId with
    | none => .error "Product does not exist. Cannot update image."
    | some product =>
      let updatedProduct := { product with image := newImage }
      .ok (updatedProduct, { s with products := s.products.add productId updatedProduct })

/-! ### Category-registry invariant (claim C2) -/

/-- Parent coherence for one record: if `c` declares a parent `p`, then `p`
resolves in the registry to a record `P` that lists `c.name` among its
subcategories and is itself top-level (`P.parent = none`). -/
def parentOK (cats : StrMap Category) (c : Category) : Bool :=
  match c.parent with
  | none => true
  | some p =>
    match cats.get p with
    | none => false
    | some P => decide (c.name ∈ P.subcategories) && decide (P.parent = none)

/-- The registry invariant of the spec: every retrievable category record
is parent-coherent. -/
def CatInvariant (cats : StrMap Category) : Prop :=
  ∀ k A, cats.get k = some A → parentOK cats A = true

/-- Every record is stored under its own name. -/
def KeysMatch (cats : StrMap Category) : Prop :=
  ∀ k A, cats.get k = some A → A.name = k

def GoodCats (cats : StrMap Category) : Prop :=
  KeysMatch cats ∧ CatInvariant cats

theorem parentOK_none {cats : StrMap Category} {c : Category}
    (h : c.parent = none) : parentOK cats c = true := by
  unfold parentOK
  rw [h]

theorem parentOK_some_iff {cats : StrMap Category} {c : Category} {p : String}
    (h : c.parent = some p) :
    parentOK cats c = true ↔
      ∃ P, cats.get p = some P ∧ c.name ∈ P.subcategories ∧ P.parent = none := by
  unfold parentOK
  simp only [h]
  cases hg : StrMap.get cats p with
  | none => simp [hg]
  | some P => simp [hg]

/-- States reachable from the initial state by successful category-registry
operations with an admin caller. -/
inductive CatReachable : State → Prop where
  | init : CatReachable initState
  | addStep {s s' : State} (c : Category) :
      CatReachable s → addCategory true c s = .ok s' → CatReachable s'
  | updateStep {s s' : State} (c : Category) :
      CatReachable s → updateCategory true c s = .ok s' → CatReachable s'
  | editStep {s s' : State} (oldName : String) (c : Category) :
      CatReachable s → editCategory true oldName c s = .ok s' → CatReachable s'
  | deleteStep {s s' : State} (n : String) :
      CatReachable s → deleteCategory true n s = .ok s' → CatReachable s'
  | reorderStep {s s' : State} (l : List Category) :
      CatReachable s → reorderCategories true l s = .ok s' → CatReachable s'

/-- States reachable from the initial state using only successful
`addCategory` calls. -/
inductive AddReachable : State → Prop where
  | init : AddReachable initState
  | step {s s' : State} (c : Category) :
      AddReachable s → addCategory true c s = .ok s' → AddReachable s'

theorem updateParent_eq (cats : StrMap Category) (P : Category) (child : String) :
    updateParentWithNewSubcategory cats P child =
      cats.add P.name { P with subcategories := P.subcategories ++ [child] } := rfl

/-- Inversion of a successful `addCategory` call. -/
theorem addCategory_ok_inv {c : Category} {s s' : State}
    (hok : addCategory true c s = .ok s') :
    c.name ≠ "" ∧ StrMap.get s.categories c.name = none ∧
    s'.products = s.products ∧ s'.priceConstraints = s.priceConstraints ∧
    s'.currentBatch = s.currentBatch ∧ s'.isBatchUploading = s.isBatchUploading ∧
    ((c.parent = none ∧ s'.categories = s.categories.add c.name c) ∨
      (∃ pn P, c.parent = some pn ∧ StrMap.get s.categories pn = some P ∧
        P.parent = none ∧
        s'.categories =
          (updateParentWithNewSubcategory s.categories P c.name).add c.name c)) := by
  unfold addCategory at hok
  simp only [Bool.not_true, Bool.false_eq_true, if_false] at hok
  by_cases hname : c.name = ""
  · rw [if_pos hname] at hok; cases hok
  · rw [if_neg hname] at hok
    by_cases hck : s.categories.containsKey c.name = true
    · rw [if_pos hck] at hok; cases hok
    · rw [if_neg hck] at hok
      have hfresh : StrMap.get s.categories c.name = none :=
        (StrMap.containsKey_eq_false_iff _ _).mp (by simpa using hck)
      cases hpar : c.parent with
      | none =>
        simp only [hpar] at hok
        injection hok with hok
        subst hok
        exact ⟨hname, hfresh, rfl, rfl, rfl, rfl, Or.inl ⟨rfl, rfl⟩⟩
      | some pn =>
        simp only [hpar] at hok
        cases hgp : StrMap.get s.categories pn with
        | none =>
          simp only [hgp] at hok
          exact Except.noConfusion hok
        | some P =>
          simp only [hgp] at hok
          cases hPp : P.parent with
          | some x =>
            simp only [hPp] at hok
            exact Except.noConfusion hok
          | none =>
            simp only [hPp] at hok
            injection hok with hok
            subst hok
            exact ⟨hname, hfresh, rfl, rfl, rfl, rfl,
              Or.inr ⟨pn, P, rfl, hgp, hPp, rfl⟩⟩

/-- A successful `addCategory` call preserves name-keying and the parent
invariant. -/
theorem addCategory_preserves_good {c : Category} {s s' : State}
    (hg : GoodCats s.categories) (hok : addCategory true c s = .ok s') :
    GoodCats s'.categories := by
  obtain ⟨hkm, hinv⟩ := hg
  obtain ⟨-, hfresh, -, -, -, -, hcases⟩ := addCategory_ok_inv hok
  rcases hcases with ⟨hpar, hcats⟩ | ⟨pn, P, hpar, hgetP, hPtop, hcats⟩
  · constructor
    · intro k A hA
      rw [hcats] at hA
      by_cases hk : k = c.name
      · subst hk
        rw [StrMap.get_add_self] at hA
        injection hA with hA
        subst hA
        rfl
      · rw [StrMap.get_add_ne _ _ _ _ hk] at hA
        exact hkm k A hA
    · intro k A hA
      rw [hcats] at hA ⊢
      by_cases hk : k = c.name
      · subst hk
        rw [StrMap.get_add_self] at hA
        injection hA with hA
        subst hA
        exact parentOK_none hpar
      · rw [StrMap.get_add_ne _ _ _ _ hk] at hA
        have hold := hinv k A hA
        cases hAp : A.parent with
        | none => exact parentOK_none hAp
        | some q =>
          obtain ⟨Q, hQ, hmem, hQtop⟩ := (parentOK_some_iff hAp).mp hold
          have hqne : q ≠ c.name := by
            intro he; rw [he, hfresh] at hQ; cases hQ
          refine (parentOK_some_iff hAp).mpr ⟨Q, ?_, hmem, hQtop⟩
          rw [StrMap.get_add_ne _ _ _ _ hqne]
          exact hQ
  · have hPname : P.name = pn := hkm pn P hgetP
    have hpnne : pn ≠ c.name := by
      intro he; rw [he, hfresh] at hgetP; cases hgetP
    set P' : Category := { P with subcategories := P.subcategories ++ [c.name] } with hP'
    have hcats' : s'.categories = (s.categories.add pn P').add c.name c := by
      rw [hcats, updateParent_eq, hP', hPname]
    have hget_pn : StrMap.get s'.categories pn = some P' := by
      rw [hcats', StrMap.get_add_ne _ _ _ _ hpnne, StrMap.get_add_self]
    have hget_cn : StrMap.get s'.categories c.name = some c := by
      rw [hcats', StrMap.get_add_self]
    have hget_other : ∀ k, k ≠ c.name → k ≠ pn →
        StrMap.get s'.categories k = StrMap.get s.categories k := by
      intro k h1 h2
      rw [hcats', StrMap.get_add_ne _ _ _ _ h1, StrMap.get_add_ne _ _ _ _ h2]
    constructor
    · intro k A hA
      by_cases hk : k = c.name
      · subst hk; rw [hget_cn] at hA
        injection hA with hA
        subst hA
        rfl
      · by_cases hk2 : k = pn
        · subst hk2; rw [hget_pn] at hA
          injection hA with hA
          subst hA
          exact hPname
        · rw [hget_other k hk hk2] at hA
          exact hkm k A hA
    · intro k A hA
      by_cases hk : k = c.name
      · subst hk; rw [hget_cn] at hA
        injection hA with hA
        subst hA
        refine (parentOK_some_iff hpar).mpr ⟨P', hget_pn, ?_, ?_⟩
        · rw [hP']; simp
        · rw [hP']; simpa using hPtop
      · by_cases hk2 : k = pn
        · subst hk2; rw [hget_pn] at hA
          injection hA with hA
          subst hA
          apply parentOK_none
          rw [hP']
          simpa using hPtop
        · rw [hget_other k hk hk2] at hA
          have hold := hinv k A hA
          cases hAp : A.parent with
          | none => exact parentOK_none hAp
          | some q =>
            obtain ⟨Q, hQ, hmem, hQtop⟩ := (parentOK_some_iff hAp).mp hold
            have hqne : q ≠ c.name := by
              intro he; rw [he, hfresh] at hQ; cases hQ
            by_cases hq2 : q = pn
            · subst hq2
              rw [hgetP] at hQ
              injection hQ with hQ
              subst hQ
              refine (parentOK_some_iff hAp).mpr ⟨P', hget_pn, ?_, ?_⟩
              · rw [hP']; simp [hmem]
              · rw [hP']; simpa using hPtop
            · refine (parentOK_some_iff hAp).mpr ⟨Q, ?_, hmem, hQtop⟩
              rw [hget_other q hqne hq2]
              exact hQ

theorem addReachable_good {s : State} (h : AddReachable s) :
    GoodCats s.categories := by
  induction h with
  | init =>
    constructor
    · intro k A hA
      simp [initState, StrMap.get] at hA
    · intro k A hA
      simp [initState, StrMap.get] at hA
  | step c hr hok ih => exact addCategory_preserves_good ih hok

/-! ### Concrete category traces -/

def cexTop : Category := { name := "A", subcategories := [], parent := none }

def cexChild : Category := { name := "B", subcategories := [], parent := some "A" }

def cexS1 : State := { initState with categories := [("A", cexTop)] }

def cexS2 : State :=
  { initState with categories :=
      [("A", { name := "A", subcategories := ["B"], parent := none }),
       ("B", cexChild)] }

/-- The state left behind by addCategory A → addCategory B (parent A) →
deleteCategory A: record B survives but its parent A is gone. -/
def orphanState : State := { initState with categories := [("B", cexChild)] }

/-- C2 counterexample: the state reached by the category operations
addCategory {A, top-level} → addCategory {B, parent A} → deleteCategory A
violates the claimed invariant: B still declares parent A, but A no
longer exists in the registry. -/
theorem catInvariant_violated_reachable :
    CatReachable orphanState ∧ ¬ CatInvariant orphanState.categories := by
  constructor
  · exact CatReachable.deleteStep "A"
      (CatReachable.addStep cexChild
        (CatReachable.addStep cexTop CatReachable.init rfl) rfl) rfl
  · intro h
    have hbad := h "B" cexChild rfl
    exact absurd hbad (by decide)

/-- C2 (amended): the parent invariant — every category declaring a parent
P resolves P to an existing, top-level record listing the child's name —
holds in every state reachable from the empty registry using only
successful `addCategory` calls; the remaining registry operations
(updateCategory, editCategory, deleteCategory, reorderCategories) do not
preserve it. -/
theorem addReachable_catInvariant (s : State) (h : AddReachable s) :
    CatInvariant s.categories :=
  (addReachable_good h).2

theorem addReachable_catInvariant_witness : CatInvariant cexS2.categories :=
  addReachable_catInvariant cexS2
    (AddReachable.step cexChild (AddReachable.step cexTop AddReachable.init rfl) rfl)

/-! ### Claim C3: addCategory appends the child to the declared parent -/

/-- C3: for an admin caller, if `addCategory c` succeeds and `c` declares
parent `pn` (resolving to record `P` stored under its own name), then the
new registry contains `c` under `c.name` and the parent record's
subcategory list is its previous value with `c.name` appended. -/
theorem addCategory_appends_to_parent (c : Category) (s s' : State)
    (pn : String) (P : Category)
    (hpar : c.parent = some pn) (hP : StrMap.get s.categories pn = some P)
    (hPname : P.name = pn)
    (hok : addCategory true c s = .ok s') :
    StrMap.get s'.categories c.name = some c ∧
    StrMap.get s'.categories pn =
      some { P with subcategories := P.subcategories ++ [c.name] } := by
  obtain ⟨-, hfresh, -, -, -, -, hcases⟩ := addCategory_ok_inv hok
  rcases hcases with ⟨hpn, -⟩ | ⟨pn2, P2, hpar2, hget2, -, hcats⟩
  · rw [hpar] at hpn; cases hpn
  · rw [hpar] at hpar2
    injection hpar2 with hpar2
    subst hpar2
    rw [hP] at hget2
    injection hget2 with hget2
    subst hget2
    have hpnne : pn ≠ c.name := by
      intro he; rw [he, hfresh] at hP; cases hP
    constructor
    · rw [hcats, StrMap.get_add_self]
    · rw [hcats, StrMap.get_add_ne _ _ _ _ hpnne, updateParent_eq, hPname,
        StrMap.get_add_self]

def scTop : Category := { name := "3d print", subcategories := [], parent := none }

def scSub : Category :=
  { name := "shape type", subcategories := [], parent := some "3d print" }

def scS1 : State := { initState with categories := [("3d print", scTop)] }

def scS2 : State :=
  { initState with categories :=
      [("3d print", { name := "3d print", subcategories := ["shape type"], parent := none }),
       ("shape type", scSub)] }

theorem addCategory_appends_to_parent_witness :
    StrMap.get scS2.categories "shape type" = some scSub ∧
    StrMap.get scS2.categories "3d print" =
      some { scTop with subcategories := scTop.subcategories ++ ["shape type"] } :=
  addCategory_appends_to_parent scSub scS1 scS2 "3d print" scTop rfl rfl rfl rfl

/-! ### Claim C4: addCategory failure conditions -/

def isErr {α : Type} (r : Except String α) : Bool :=
  match r with
  | .error _ => true
  | .ok _ => false

/-- C4: with an admin caller, `addCategory c` fails exactly when `c`'s
name is empty, a category with that name already exists, the declared
parent is missing, or the declared parent is itself a subcategory.
Failure is modelled as an `.error` result carrying no successor state:
a Motoko trap rolls the whole message back, so a failing call leaves the
registry and all other state unchanged by construction. -/
theorem addCategory_error_iff (c : Category) (s : State) :
    isErr (addCategory true c s) = true ↔
      (c.name = "" ∨ StrMap.containsKey s.categories c.name = true ∨
        ∃ pn, c.parent = some pn ∧
          (StrMap.get s.categories pn = none ∨
            ∃ P, StrMap.get s.categories pn = some P ∧ P.parent ≠ none)) := by
  unfold addCategory
  simp only [Bool.not_true, Bool.false_eq_true, if_false]
  by_cases hname : c.name = ""
  · simp [hname, isErr]
  · rw [if_neg hname]
    by_cases hck : s.categories.containsKey c.name = true
    · simp [hck, isErr]
    · rw [if_neg hck]
      simp only [hname, hck, false_or]
      cases hpar : c.parent with
      | none => simp [hpar, isErr]
      | some pn =>
        cases hgp : StrMap.get s.categories pn with
        | none => simp [hpar, hgp, isErr]
        | some P =>
          cases hPp : P.parent with
          | some x => simp [hpar, hgp, hPp, isErr]
          | none => simp [hpar, hgp, hPp, isErr]

/-! ### Operation lemmas for the batch session and the catalog -/

theorem startBatchUpload_error_iff (cid : String) (s : State) :
    isErr (startBatchUpload true cid s) = true ↔
      (StrMap.containsKey s.categories cid = false ∨ s.isBatchUploading = true) := by
  unfold startBatchUpload
  by_cases hck : s.categories.containsKey cid = true
  · by_cases hb : s.isBatchUploading = true
    · simp [hck, hb, isErr]
    · simp [hck, hb, isErr]
  · rw [Bool.not_eq_true] at hck
    simp [hck, isErr]

theorem startBatchUpload_ok_inv {cid : String} {s s' : State}
    (hok : startBatchUpload true cid s = .ok s') :
    StrMap.containsKey s.categories cid = true ∧ s.isBatchUploading = false ∧
    s' = { s with currentBatch := [], isBatchUploading := true } := by
  unfold startBatchUpload at hok
  simp only [Bool.not_true, Bool.false_eq_true, if_false] at hok
  by_cases hck : s.categories.containsKey cid = true
  · simp only [hck, Bool.not_true, Bool.false_eq_true, if_false] at hok
    by_cases hb : s.isBatchUploading = true
    · rw [if_pos hb] at hok; cases hok
    · rw [if_neg hb] at hok
      injection hok with hok
      rw [Bool.not_eq_true] at hb
      exact ⟨hck, hb, hok.symm⟩
  · rw [Bool.not_eq_true] at hck
    simp [hck] at hok

theorem uploadProductImage_error_iff (n : String) (img : ExternalBlob) (pr : Nat)
    (cid : String) (s : State) :
    isErr (uploadProductImage true n img pr cid s) = true ↔
      s.isBatchUploading = false := by
  unfold uploadProductImage
  by_cases hb : s.isBatchUploading = true
  · simp [hb, isErr]
  · rw [Bool.not_eq_true] at hb
    simp [hb, isErr]

theorem uploadProductImage_eq_of_active (n : String) (img : ExternalBlob) (pr : Nat)
    (cid : String) (s : State) (hb : s.isBatchUploading = true) :
    uploadProductImage true n img pr cid s = .ok
      { s with currentBatch := s.currentBatch ++
          [{ id := n ++ "#" ++ toString (StrMap.size s.products), name := n,
             price := pr, categoryId := cid, image := img }] } := by
  unfold uploadProductImage
  simp [hb]

theorem uploadProductImage_ok_inv {n : String} {img : ExternalBlob} {pr : Nat}
    {cid : String} {s s' : State}
    (hok : uploadProductImage true n img pr cid s = .ok s') :
    s.isBatchUploading = true ∧
    s' = { s with currentBatch := s.currentBatch ++
      [{ id := n ++ "#" ++ toString (StrMap.size s.products), name := n,
         price := pr, categoryId := cid, image := img }] } := by
  by_cases hb : s.isBatchUploading = true
  · rw [uploadProductImage_eq_of_active n img pr cid s hb] at hok
    injection hok with hok
    exact ⟨hb, hok.symm⟩
  · rw [Bool.not_eq_true] at hb
    unfold uploadProductImage at hok
    simp [hb] at hok

theorem commitBatch_ok_of_resolvable (cats : StrMap Category) (items : List ProductInput) :
    ∀ acc : StrMap Product,
      (∀ p ∈ items, (StrMap.get cats p.categoryId).isSome = true) →
      ∃ ps, commitBatch cats items acc = .ok ps := by
  induction items with
  | nil => exact fun acc _ => ⟨acc, rfl⟩
  | cons p rest ih =>
    intro acc h
    have hp := h p (List.mem_cons_self _ _)
    cases hg : StrMap.get cats p.categoryId with
    | none => rw [hg] at hp; cases hp
    | some C =>
      obtain ⟨ps, hps⟩ :=
        ih (acc.add (committedProduct p C).id (committedProduct p C))
          (fun q hq => h q (List.mem_cons_of_mem _ hq))
      exact ⟨ps, by simp [commitBatch, hg, hps]⟩

theorem commitBatch_pair {cats : StrMap Category} {cid : String} {C : Category}
    (hC : StrMap.get cats cid = some C) (i1 i2 : ProductInput) (m : StrMap Product)
    (h1 : i1.categoryId = cid) (h2 : i2.categoryId = cid) :
    commitBatch cats [i1, i2] m = .ok
      ((m.add i1.id (committedProduct i1 C)).add i2.id (committedProduct i2 C)) := by
  simp [commitBatch, committedProduct, h1, h2, hC]

theorem finishBatchUpload_eq {s : State} {ps : StrMap Product}
    (hcb : commitBatch s.categories s.currentBatch s.products = .ok ps) :
    finishBatchUpload true s = .ok { s with products := ps, isBatchUploading := false } := by
  unfold finishBatchUpload
  simp [hcb]

theorem addProduct_eq_of_category {n cid : String} {pr : Nat} {img : ExternalBlob}
    {C : Category} {s : State} (hC : StrMap.get s.categories cid = some C) :
    addProduct true n pr img cid s = .ok { s with products :=
      (s.products.add (n ++ "#" ++ toString (StrMap.size s.products))
        { id := n ++ "#" ++ toString (StrMap.size s.products), name := n,
          description := generateProductDescription n C.name, price := pr,
          categoryId := cid, image := img }) } := by
  unfold addProduct
  simp [hC]

theorem updateProductImage_error_iff (pid : String) (img : ExternalBlob) (s : State) :
    isErr (updateProductImage true pid img s) = true ↔
      StrMap.get s.products pid = none := by
  unfold updateProductImage
  cases hg : StrMap.get s.products pid with
  | none => simp [hg, isErr]
  | some p => simp [hg, isErr]

theorem updateProductImage_ok_inv {pid : String} {img : ExternalBlob} {s s' : State}
    {P : Product} (hok : updateProductImage true pid img s = .ok (P, s')) :
    ∃ p, StrMap.get s.products pid = some p ∧ P = { p with image := img } ∧
      s' = { s with products := s.products.add pid { p with image := img } } := by
  unfold updateProductImage at hok
  simp only [Bool.not_true, Bool.false_eq_true, if_false] at hok
  cases hg : StrMap.get s.products pid with
  | none =>
    simp only [hg] at hok
    exact Except.noConfusion hok
  | some p =>
    simp only [hg] at hok
    injection hok with hok
    injection hok with hP hs
    exact ⟨p, rfl, hP.symm, hs.symm⟩

theorem editCategory_ok_inv {oldName : String} {c : Category} {s s' : State}
    (hok : editCategory true oldName c s = .ok s') :
    s' = { s with categories := (s.categories.remove oldName).add c.name c } := by
  unfold editCategory at hok
  simp only [Bool.not_true, Bool.false_eq_true, if_false] at hok
  by_cases hname : c.name = ""
  · rw [if_pos hname] at hok; cases hok
  · rw [if_neg hname] at hok
    by_cases hck : s.categories.containsKey oldName = true
    · simp only [hck, Bool.not_true, Bool.false_eq_true, if_false] at hok
      cases hpar : c.parent with
      | none =>
        simp only [hpar] at hok
        injection hok with hok
        exact hok.symm
      | some pn =>
        simp only [hpar] at hok
        cases hgp : StrMap.get s.categories pn with
        | none =>
          simp only [hgp] at hok
          exact Except.noConfusion hok
        | some P =>
          simp only [hgp] at hok
          cases hPp : P.parent with
          | some x =>
            simp only [hPp] at hok
            exact Except.noConfusion hok
          | none =>
            simp only [hPp] at hok
            injection hok with hok
            exact hok.symm
    · rw [Bool.not_eq_true] at hck
      simp [hck] at hok

theorem deleteCategory_ok_inv {n : String} {s s' : State}
    (hok : deleteCategory true n s = .ok s') :
    StrMap.containsKey s.categories n = true ∧
    s' = { s with categories := s.categories.remove n } := by
  unfold deleteCategory at hok
  simp only [Bool.not_true, Bool.false_eq_true, if_false] at hok
  by_cases hck : s.categories.containsKey n = true
  · simp only [hck, Bool.not_true, Bool.false_eq_true, if_false] at hok
    injection hok with hok
    exact ⟨hck, hok.symm⟩
  · rw [Bool.not_eq_true] at hck
    simp [hck] at hok

/-! ### Claim C1: finishBatchUpload commits but does not clear -/

def widgetCat : Category := { name := "3d print", subcategories := [], parent := none }

def widgetBase : State := { initState with categories := [("3d print", widgetCat)] }

def widgetStart : State := { widgetBase with currentBatch := [], isBatchUploading := true }

def widgetInput : ProductInput :=
  { id := "Widget#0", name := "Widget", price := 500, categoryId := "3d print", image := 42 }

def widgetAppended : State := { widgetStart with currentBatch := [widgetInput] }

def widgetProduct : Product := committedProduct widgetInput widgetCat

def widgetFinal : State :=
  { widgetAppended with products := [("Widget#0", widgetProduct)], isBatchUploading := false }

/-- C1 counterexample: in the scenario startBatchUpload "3d print" →
append Widget (price 500) → finishBatchUpload, the finish call succeeds,
the catalog contains exactly the Widget product with price 500 and
category "3d print", and the session flag is back to Idle — but the
pending list is NOT cleared: it still holds the Widget input, refuting
the claimed empty pending list.  (The list is only cleared by the next
startBatchUpload.) -/
theorem finish_does_not_clear_pending :
    startBatchUpload true "3d print" widgetBase = .ok widgetStart ∧
    uploadProductImage true "Widget" 42 500 "3d print" widgetStart = .ok widgetAppended ∧
    finishBatchUpload true widgetAppended = .ok widgetFinal ∧
    getAllProducts widgetFinal = [widgetProduct] ∧
    widgetProduct.name = "Widget" ∧ widgetProduct.price = 500 ∧
    widgetProduct.categoryId = "3d print" ∧
    widgetFinal.isBatchUploading = false ∧
    widgetFinal.currentBatch ≠ [] :=
  ⟨rfl, rfl, rfl, rfl, rfl, rfl, rfl, rfl, by decide⟩

/-- C1 (amended): for an admin caller, if every pending item's category is
resolvable, finishBatchUpload succeeds, commits the pending items into the
product catalog (via the commit loop, in order, each with a generated
description), and transitions the session back to Idle — but it leaves
the pending list unchanged rather than clearing it; the list is cleared
only by the next startBatchUpload. -/
theorem finishBatchUpload_commits (s : State)
    (hact : s.isBatchUploading = true)
    (hres : ∀ p ∈ s.currentBatch, (StrMap.get s.categories p.categoryId).isSome = true) :
    ∃ s', finishBatchUpload true s = .ok s' ∧
      commitBatch s.categories s.currentBatch s.products = .ok s'.products ∧
      s'.isBatchUploading = false ∧
      s'.currentBatch = s.currentBatch ∧
      s'.categories = s.categories ∧ s'.priceConstraints = s.priceConstraints := by
  obtain ⟨ps, hps⟩ :=
    commitBatch_ok_of_resolvable s.categories s.currentBatch s.products hres
  exact ⟨_, finishBatchUpload_eq hps, hps, rfl, rfl, rfl, rfl⟩

theorem finishBatchUpload_commits_witness :
    ∃ s', finishBatchUpload true widgetAppended = .ok s' ∧
      commitBatch widgetAppended.categories widgetAppended.currentBatch
        widgetAppended.products = .ok s'.products ∧
      s'.isBatchUploading = false ∧
      s'.currentBatch = widgetAppended.currentBatch ∧
      s'.categories = widgetAppended.categories ∧
      s'.priceConstraints = widgetAppended.priceConstraints :=
  finishBatchUpload_commits widgetAppended rfl (by decide)

/-! ### Claim C5: batch start and append -/

/-- C5: with an admin caller, startBatchUpload fails exactly when the
category is unknown or a batch is already active, and on success
transitions to Active with an empty pending list; uploadProductImage
fails exactly when the session is Idle, and otherwise appends one
ProductInput with generated id name + "#" + catalogSize to the pending
list, leaving the product catalog (and everything else) untouched. -/
theorem batch_start_append_spec (cid n : String) (img : ExternalBlob) (pr : Nat)
    (s : State) :
    (isErr (startBatchUpload true cid s) = true ↔
      (StrMap.containsKey s.categories cid = false ∨ s.isBatchUploading = true)) ∧
    (∀ s', startBatchUpload true cid s = .ok s' →
      s' = { s with currentBatch := [], isBatchUploading := true }) ∧
    (isErr (uploadProductImage true n img pr cid s) = true ↔
      s.isBatchUploading = false) ∧
    (∀ s', uploadProductImage true n img pr cid s = .ok s' →
      s'.products = s.products ∧
      s' = { s with currentBatch := s.currentBatch ++
        [{ id := n ++ "#" ++ toString (StrMap.size s.products), name := n,
           price := pr, categoryId := cid, image := img }] }) := by
  refine ⟨startBatchUpload_error_iff cid s, ?_,
    uploadProductImage_error_iff n img pr cid s, ?_⟩
  · intro s' hok
    exact (startBatchUpload_ok_inv hok).2.2
  · intro s' hok
    obtain ⟨-, hs⟩ := uploadProductImage_ok_inv hok
    exact ⟨by rw [hs], hs⟩

def batchBase : State :=
  { initState with categories := [("K", { name := "K", subcategories := [], parent := none })] }

def batchStarted : State := { batchBase with currentBatch := [], isBatchUploading := true }

def batchItem : ProductInput :=
  { id := "P#0", name := "P", price := 3, categoryId := "K", image := 5 }

def batchAppended : State := { batchStarted with currentBatch := [batchItem] }

theorem batch_start_append_spec_witness :
    batchStarted = { batchBase with currentBatch := [], isBatchUploading := true } ∧
    batchAppended.products = batchStarted.products ∧
    batchAppended = { batchStarted with currentBatch := batchStarted.currentBatch ++
      [{ id := "P" ++ "#" ++ toString (StrMap.size batchStarted.products), name := "P",
         price := 3, categoryId := "K", image := 5 }] } := by
  refine ⟨(batch_start_append_spec "K" "P" 5 3 batchBase).2.1 batchStarted rfl, ?_, ?_⟩
  · exact ((batch_start_append_spec "K" "P" 5 3 batchStarted).2.2.2 batchAppended rfl).1
  · exact ((batch_start_append_spec "K" "P" 5 3 batchStarted).2.2.2 batchAppended rfl).2

/-! ### Claim C6: renaming does not fix up subcategory lists -/

/-- C6: renaming via editCategory (new name different from the old one)
removes the old key, inserts the new key, and leaves every other category
record — including the former parent's subcategory list, which keeps the
stale old name — exactly as it was; all non-category state is untouched. -/
theorem editCategory_rename_frame (oldName : String) (c : Category) (s s' : State)
    (hne : c.name ≠ oldName)
    (hok : editCategory true oldName c s = .ok s') :
    s'.categories = (s.categories.remove oldName).add c.name c ∧
    StrMap.get s'.categories c.name = some c ∧
    (∀ k, k ≠ oldName → k ≠ c.name →
      StrMap.get s'.categories k = StrMap.get s.categories k) ∧
    s'.products = s.products ∧ s'.priceConstraints = s.priceConstraints ∧
    s'.currentBatch = s.currentBatch ∧ s'.isBatchUploading = s.isBatchUploading := by
  have hs := editCategory_ok_inv hok
  subst hs
  refine ⟨rfl, StrMap.get_add_self _ _ _, ?_, rfl, rfl, rfl, rfl⟩
  intro k h1 h2
  show StrMap.get ((s.categories.remove oldName).add c.name c) k =
    StrMap.get s.categories k
  rw [StrMap.get_add_ne _ _ _ _ h2, StrMap.get_remove_ne _ _ _ h1]

def renB2 : Category := { name := "B2", subcategories := [], parent := some "A" }

def renParent : Category := { name := "A", subcategories := ["B"], parent := none }

def renBase : State :=
  { initState with categories :=
      [("A", renParent), ("B", { name := "B", subcategories := [], parent := some "A" })] }

def renAfter : State :=
  { initState with categories := [("A", renParent), ("B2", renB2)] }

theorem editCategory_rename_frame_witness :
    StrMap.get renAfter.categories "A" = some renParent ∧
    renAfter.products = renBase.products := by
  have h := editCategory_rename_frame "B" renB2 renBase renAfter (by decide) rfl
  exact ⟨(h.2.2.1 "A" (by decide) (by decide)).trans rfl, h.2.2.2.1⟩

/-! ### Claim C7: deleteCategory does not cascade -/

/-- C7: deleteCategory removes exactly the entry for the given name and
changes nothing else: categories whose parent is the deleted name remain
(orphaned), categories whose subcategory lists mention it are unchanged,
and the product catalog is untouched. -/
theorem deleteCategory_frame (n : String) (s s' : State)
    (hnd : (s.categories.map Prod.fst).Nodup)
    (hok : deleteCategory true n s = .ok s') :
    s'.categories = s.categories.remove n ∧
    StrMap.get s'.categories n = none ∧
    (∀ k, k ≠ n → StrMap.get s'.categories k = StrMap.get s.categories k) ∧
    s'.products = s.products ∧ s'.priceConstraints = s.priceConstraints ∧
    s'.currentBatch = s.currentBatch ∧ s'.isBatchUploading = s.isBatchUploading := by
  obtain ⟨-, hs⟩ := deleteCategory_ok_inv hok
  subst hs
  refine ⟨rfl, StrMap.get_remove_self _ _ hnd, ?_, rfl, rfl, rfl, rfl⟩
  intro k hk
  exact StrMap.get_remove_ne _ _ _ hk

def delChild : Category := { name := "B", subcategories := [], parent := some "A" }

def delProd : Product :=
  { id := "W#0", name := "W", description := "d", price := 5, categoryId := "A", image := 7 }

def delBase : State :=
  { initState with
      products := [("W#0", delProd)],
      categories := [("A", { name := "A", subcategories := ["B"], parent := none }),
        ("B", delChild)] }

def delAfter : State := { delBase with categories := [("B", delChild)] }

theorem deleteCategory_frame_witness :
    StrMap.get delAfter.categories "B" = some delChild ∧
    delAfter.products = delBase.products := by
  have h := deleteCategory_frame "A" delBase delAfter (by decide) rfl
  exact ⟨(h.2.2.1 "B" (by decide)).trans rfl, h.2.2.2.1⟩

/-! ### Claim C8: updateProductImage replaces only the image -/

/-- C8: with an admin caller, updateProductImage fails (a trap, rolling
the message back, hence no state change) exactly when the product id is
unknown; on a known id it returns and stores a record identical to the
stored one in every field except image, leaving every other product and
all non-catalog state untouched. -/
theorem updateProductImage_spec (pid : String) (img : ExternalBlob) (s : State) :
    (isErr (updateProductImage true pid img s) = true ↔
      StrMap.get s.products pid = none) ∧
    (∀ p P s', StrMap.get s.products pid = some p →
      updateProductImage true pid img s = .ok (P, s') →
      P = { p with image := img } ∧
      s'.products = s.products.add pid { p with image := img } ∧
      StrMap.get s'.products pid = some { p with image := img } ∧
      (∀ k, k ≠ pid → StrMap.get s'.products k = StrMap.get s.products k) ∧
      s'.categories = s.categories ∧ s'.priceConstraints = s.priceConstraints ∧
      s'.currentBatch = s.currentBatch ∧ s'.isBatchUploading = s.isBatchUploading) := by
  refine ⟨updateProductImage_error_iff pid img s, ?_⟩
  intro p P s' hp hok
  obtain ⟨p2, hp2, hP, hs⟩ := updateProductImage_ok_inv hok
  rw [hp] at hp2
  injection hp2 with hp2
  subst hp2
  subst hP
  subst hs
  refine ⟨rfl, rfl, StrMap.get_add_self _ _ _, ?_, rfl, rfl, rfl, rfl⟩
  intro k hk
  exact StrMap.get_add_ne _ _ _ _ hk

def updOld : Product :=
  { id := "W#0", name := "W", description := "d", price := 5, categoryId := "A", image := 1 }

def updBase : State := { initState with products := [("W#0", updOld)] }

def updNew : Product := { updOld with image := 9 }

def updAfter : State := { initState with products := [("W#0", updNew)] }

theorem updateProductImage_spec_witness :
    updNew = { updOld with image := 9 } ∧
    StrMap.get updAfter.products "W#0" = some { updOld with image := 9 } ∧
    updAfter.categories = updBase.categories := by
  have h := (updateProductImage_spec "W#0" 9 updBase).2 updOld updNew updAfter rfl rfl
  exact ⟨h.1, h.2.2.1, h.2.2.2.2.1⟩

/-! ### Claim C9: no server-side price floor -/

/-- C9: product creation never consults the price-constraint table: with
an admin caller and an existing category, addProduct succeeds and inserts
the product for every price (in particular for any price below the
category's recorded minPrice), and addProduct, uploadProductImage and
finishBatchUpload all behave identically under any priceConstraints
table. -/
theorem no_price_floor (n cid : String) (pr : Nat) (img : ExternalBlob)
    (C : Category) (s : State)
    (hC : StrMap.get s.categories cid = some C) :
    (∃ s', addProduct true n pr img cid s = .ok s' ∧
      StrMap.get s'.products (n ++ "#" ++ toString (StrMap.size s.products)) =
        some { id := n ++ "#" ++ toString (StrMap.size s.products), name := n,
               description := generateProductDescription n C.name, price := pr,
               categoryId := cid, image := img }) ∧
    (∀ pcs : StrMap PriceConstraint,
      addProduct true n pr img cid { s with priceConstraints := pcs } =
        Except.map (fun s2 => { s2 with priceConstraints := pcs })
          (addProduct true n pr img cid s)) ∧
    (∀ pcs : StrMap PriceConstraint,
      uploadProductImage true n img pr cid { s with priceConstraints := pcs } =
        Except.map (fun s2 => { s2 with priceConstraints := pcs })
          (uploadProductImage true n img pr cid s)) ∧
    (∀ pcs : StrMap PriceConstraint,
      finishBatchUpload true { s with priceConstraints := pcs } =
        Except.map (fun s2 => { s2 with priceConstraints := pcs })
          (finishBatchUpload true s)) := by
  refine ⟨⟨_, addProduct_eq_of_category hC, StrMap.get_add_self _ _ _⟩, ?_, ?_, ?_⟩
  · intro pcs
    unfold addProduct
    cases hg : StrMap.get s.categories cid with
    | none => simp [hg, Except.map]
    | some C2 => simp [hg, Except.map]
  · intro pcs
    unfold uploadProductImage
    by_cases hb : s.isBatchUploading = true
    · simp [hb, Except.map]
    · rw [Bool.not_eq_true] at hb
      simp [hb, Except.map]
  · intro pcs
    unfold finishBatchUpload
    cases hcb : commitBatch s.categories s.currentBatch s.products with
    | error e => simp [hcb, Except.map]
    | ok ps => simp [hcb, Except.map]

def floorCat : Category :=
  { name := "Ceramic Ocarina", subcategories := [], parent := none }

def floorBase : State :=
  { initState with
      categories := [("Ceramic Ocarina", floorCat)],
      priceConstraints :=
        [("Ceramic Ocarina", { category := "Ceramic Ocarina", minPrice := "19" })] }

theorem no_price_floor_witness :
    getPriceConstraint "Ceramic Ocarina" floorBase =
      some { category := "Ceramic Ocarina", minPrice := "19" } ∧
    ∃ s', addProduct true "Cheap" 5 0 "Ceramic Ocarina" floorBase = .ok s' ∧
      StrMap.get s'.products
          ("Cheap" ++ "#" ++ toString (StrMap.size floorBase.products)) =
        some { id := "Cheap" ++ "#" ++ toString (StrMap.size floorBase.products),
               name := "Cheap",
               description := generateProductDescription "Cheap" floorCat.name,
               price := 5, categoryId := "Ceramic Ocarina", image := 0 } :=
  ⟨rfl, (no_price_floor "Cheap" "Ceramic Ocarina" 5 0 floorCat floorBase rfl).1⟩

/-! ### Claim C10: generated ids collide and the later item wins -/

/-- C10: the id generated by uploadProductImage is name + "#" + current
catalog size and appending does not grow the catalog, so two appends with
the same name in one batch produce identical ids; finishBatchUpload then
stores only one product under the shared id — the later item's data
overwrites the earlier one's — so the catalog grows by one, not two. -/
theorem duplicate_ids_overwrite (n cid : String) (i1 i2 : ExternalBlob) (p1 p2 : Nat)
    (C : Category) (s : State)
    (hact : s.isBatchUploading = true)
    (hC : StrMap.get s.categories cid = some C)
    (hempty : s.currentBatch = [])
    (hfresh : StrMap.get s.products
      (n ++ "#" ++ toString (StrMap.size s.products)) = none) :
    ∃ s1 s2 s3 : State,
      uploadProductImage true n i1 p1 cid s = .ok s1 ∧
      uploadProductImage true n i2 p2 cid s1 = .ok s2 ∧
      s2.currentBatch =
        [{ id := n ++ "#" ++ toString (StrMap.size s.products), name := n, price := p1,
           categoryId := cid, image := i1 },
         { id := n ++ "#" ++ toString (StrMap.size s.products), name := n, price := p2,
           categoryId := cid, image := i2 }] ∧
      finishBatchUpload true s2 = .ok s3 ∧
      StrMap.get s3.products (n ++ "#" ++ toString (StrMap.size s.products)) =
        some (committedProduct
          { id := n ++ "#" ++ toString (StrMap.size s.products), name := n, price := p2,
            categoryId := cid, image := i2 } C) ∧
      StrMap.size s3.products = StrMap.size s.products + 1 := by
  set pid := n ++ "#" ++ toString (StrMap.size s.products) with hpid
  set itm1 : ProductInput :=
    { id := pid, name := n, price := p1, categoryId := cid, image := i1 } with hitm1
  set itm2 : ProductInput :=
    { id := pid, name := n, price := p2, categoryId := cid, image := i2 } with hitm2
  have h1 : uploadProductImage true n i1 p1 cid s =
      .ok { s with currentBatch := [itm1] } := by
    rw [uploadProductImage_eq_of_active n i1 p1 cid s hact, hempty]
    rfl
  have h2 : uploadProductImage true n i2 p2 cid { s with currentBatch := [itm1] } =
      .ok { s with currentBatch := [itm1, itm2] } := by
    rw [uploadProductImage_eq_of_active n i2 p2 cid { s with currentBatch := [itm1] } hact]
    rfl
  have hcb := commitBatch_pair hC itm1 itm2 s.products rfl rfl
  have h3 : finishBatchUpload true { s with currentBatch := [itm1, itm2] } =
      .ok { s with
        currentBatch := [itm1, itm2],
        products := ((s.products.add itm1.id (committedProduct itm1 C)).add
          itm2.id (committedProduct itm2 C)),
        isBatchUploading := false } := by
    apply finishBatchUpload_eq
    exact hcb
  refine ⟨_, _, _, h1, h2, rfl, h3, ?_, ?_⟩
  · show StrMap.get ((s.products.add itm1.id (committedProduct itm1 C)).add
        itm2.id (committedProduct itm2 C)) pid = some (committedProduct itm2 C)
    have : StrMap.get ((s.products.add itm1.id (committedProduct itm1 C)).add
        itm2.id (committedProduct itm2 C)) itm2.id = some (committedProduct itm2 C) :=
      StrMap.get_add_self _ _ _
    exact this
  · show StrMap.size ((s.products.add itm1.id (committedProduct itm1 C)).add
        itm2.id (committedProduct itm2 C)) = StrMap.size s.products + 1
    have hg : StrMap.get (s.products.add itm1.id (committedProduct itm1 C)) itm2.id =
        some (committedProduct itm1 C) := StrMap.get_add_self _ _ _
    have hfr : StrMap.get s.products itm1.id = none := hfresh
    rw [StrMap.size_add_of_get_some _ _ _ _ hg, StrMap.size_add_of_get_none _ _ _ hfr]

def dupCat : Category := { name := "C", subcategories := [], parent := none }

def dupBase : State :=
  { initState with categories := [("C", dupCat)], isBatchUploading := true }

theorem duplicate_ids_overwrite_witness :
    ∃ s1 s2 s3 : State,
      uploadProductImage true "W" 1 10 "C" dupBase = .ok s1 ∧
      uploadProductImage true "W" 2 20 "C" s1 = .ok s2 ∧
      s2.currentBatch =
        [{ id := "W" ++ "#" ++ toString (StrMap.size dupBase.products), name := "W",
           price := 10, categoryId := "C", image := 1 },
         { id := "W" ++ "#" ++ toString (StrMap.size dupBase.products), name := "W",
           price := 20, categoryId := "C", image := 2 }] ∧
      finishBatchUpload true s2 = .ok s3 ∧
      StrMap.get s3.products ("W" ++ "#" ++ toString (StrMap.size dupBase.products)) =
        some (committedProduct
          { id := "W" ++ "#" ++ toString (StrMap.size dupBase.products), name := "W",
            price := 20, categoryId := "C", image := 2 } dupCat) ∧
      StrMap.size s3.products = StrMap.size dupBase.products + 1 :=
  duplicate_ids_overwrite "W" "C" 1 2 10 20 dupCat dupBase rfl rfl rfl rfl

end Marketplace
